import Mathlib

/-!
Verification development for the `fs` package of gcsfuse (src/fs/fs.go):
the in-process coordinator mapping fuse inode IDs to directory entities
synthesized from a GCS bucket, with a directory-name dedup index and a
table of open directory handles.

The coordinator state and its operations are embedded as pure functions;
the collaborators that live outside src/ (the `inode` package, the
`dirHandle` type, the `fuse` protocol constants and the GCS bucket) are
modelled from the spec, as indicated on each definition.
-/

/-! ## Association-list maps (Go `map` semantics: lookup, overwriting insert, delete) -/

def mapLookup {α β : Type} [DecidableEq α] : List (α × β) → α → Option β
  | [], _ => none
  | (k, v) :: m, k' => if k = k' then some v else mapLookup m k'

def mapInsert {α β : Type} [DecidableEq α] : List (α × β) → α → β → List (α × β)
  | [], k, v => [(k, v)]
  | (k', v') :: m, k, v =>
    if k' = k then (k, v) :: m else (k', v') :: mapInsert m k v

def mapErase {α β : Type} [DecidableEq α] (m : List (α × β)) (k : α) : List (α × β) :=
  m.filter fun p => decide (p.1 ≠ k)

/-! ## Names and the directory-name convention -/

/-- Embedded from src/fs/fs.go `isDirName`: a name is a directory name iff it is
empty or its last byte is the path separator. -/
def isDirName (name : String) : Bool :=
  decide (name = "") || decide (name.data.getLast? = some '/')

/-! ## Entities, attributes, and external collaborators -/

/-- Modelled from the spec: `fuse.InodeAttributes` of the kernel-protocol layer
(size, modification time, mode bits, plus the owning uid/gid). -/
structure InodeAttributes where
  size : Nat
  mtime : Nat
  mode : Nat
  uid : Nat
  gid : Nat
deriving DecidableEq

/-- Modelled from the spec: an object record returned by the backing store
(`storage.Object`); only the key (`Name`) is consumed by the coordinator. -/
structure StorageObject where
  name : String
deriving DecidableEq

/-- Modelled from the spec: the entity abstraction of the `fs/inode` package
(not under src/): a polymorphic node with variants Directory and File, each
exposing a stable identifier and a name. -/
inductive Inode where
  | dir (id : Nat) (name : String)
  | file (id : Nat) (name : String)
deriving DecidableEq

def Inode.id : Inode → Nat
  | .dir i _ => i
  | .file i _ => i

def Inode.name : Inode → String
  | .dir _ n => n
  | .file _ n => n

def Inode.isDir : Inode → Bool
  | .dir _ _ => true
  | .file _ _ => false

/-- Modelled from the spec: the backing object store and the entity-local
capabilities that consult it (`gcs.Bucket` plus the attribute/lookup/listing
logic of the `fs/inode` package, none of which is under src/).
`contains` answers single-key lookups, `dirAttrs` is the attribute-fetch
capability for a directory entity (total, per the spec's
`fetch-attributes(context) → (size, mtime, mode)` signature), and
`listChildren` is the paginated listing used by directory handles. -/
structure Bucket where
  contains : String → Bool
  dirAttrs : String → InodeAttributes
  listChildren : String → Nat → List String

/-- Modelled from the spec: the Directory entity's child-resolution capability
(`inode.DirInode.LookUpChild`, not under src/): it composes the directory's
own name with the given leaf name, queries the store, and returns the object
record or a not-found signal. -/
def lookUpChild (b : Bucket) (parentName childName : String) : Option StorageObject :=
  if b.contains (parentName ++ childName) then some ⟨parentName ++ childName⟩ else none

/-- Modelled from the spec: the entity's attribute-fetch capability
(`inode.Inode.Attributes`, not under src/), which reports backing-store
metadata; whatever uid/gid the store reports is passed through unchanged. -/
def Inode.attributes (b : Bucket) (i : Inode) : InodeAttributes :=
  b.dirAttrs i.name

/-- Modelled from the spec: the Directory Iteration Handle (`dirHandle`,
same Go package but in a file not under src/): a reference to exactly one
directory entity plus an internal iteration cursor. -/
structure DirHandle where
  inode : Inode
  cursor : Nat
deriving DecidableEq

/-- Modelled from the spec: `newDirHandle` wraps the entity with a fresh cursor. -/
def newDirHandle (d : Inode) : DirHandle :=
  { inode := d, cursor := 0 }

/-- Modelled from the spec: `dirHandle.ReadDir` (not under src/) serves one page
of the listing through the owning entity and advances its internal cursor by
exactly the number of entries returned. -/
def DirHandle.readDir (b : Bucket) (dh : DirHandle) : List String × DirHandle :=
  let entries := b.listChildren dh.inode.name dh.cursor
  (entries, { dh with cursor := dh.cursor + entries.length })

/-- Modelled from the spec: `fuse.RootInodeID`, the fixed root identifier of the
kernel-protocol layer. -/
def RootInodeID : Nat := 1

/-! ## The coordinator state (struct `fileSystem`, src/fs/fs.go:32) -/

/-- Embedded from src/fs/fs.go `fileSystem`: the mutable state guarded by `mu`.
The Go `handles` map stores `interface{}` values, but the only insertion site
(`OpenDir`) stores `*dirHandle`, so values are typed `DirHandle` here; the type
assertions at the consumption sites are therefore only presence checks. -/
structure FsState where
  uid : Nat
  gid : Nat
  inodes : List (Nat × Inode)
  nextInodeID : Nat
  dirNameIndex : List (String × Inode)
  handles : List (Nat × DirHandle)
  nextHandleID : Nat
deriving DecidableEq

/-- Embedded from src/fs/fs.go `NewFileSystem` (lines 106-129): the struct
literal sets `nextInodeID` to `fuse.RootInodeID + 1` and leaves `uid`, `gid`
and `nextHandleID` at their zero values; the root directory inode is then
installed in `inodes` and `dirNameIndex`. -/
def NewFileSystem : FsState :=
  let root : Inode := Inode.dir RootInodeID ("")
  { uid := 0
    gid := 0
    inodes := mapInsert [] RootInodeID root
    nextInodeID := RootInodeID + 1
    dirNameIndex := mapInsert [] ("") root
    handles := []
    nextHandleID := 0 }

/-! ## Operation results -/

/-- Expected operational failures reported to the caller (Go `err` returns). -/
inductive FsError where
  | notFound
  | todoFiles
deriving DecidableEq

/-- Outcome of one coordinator operation: a value with the post state, a typed
failure with the post state, or a fatal contract violation (Go `panic`, which
aborts the process). -/
inductive FsResult (α : Type) where
  | ok (val : α) (s : FsState)
  | err (e : FsError) (s : FsState)
  | fatal
deriving DecidableEq

/-! ## Operations (methods of `fileSystem`) -/

/-- Embedded from src/fs/fs.go `fileSystem.Init` (lines 257-270): records the
mounting caller's uid/gid. -/
def fileSystem.Init (s : FsState) (uid gid : Nat) : FsResult Unit :=
  .ok () { s with uid := uid, gid := gid }

/-- Embedded from src/fs/fs.go `fileSystem.getAttributes` (lines 215-227):
fetches the directory's attributes and overwrites the uid/gid with the
owner recorded at mount time. -/
def fileSystem.getAttributes (b : Bucket) (s : FsState) (d : Inode) : InodeAttributes :=
  let attrs := d.attributes b
  { attrs with uid := s.uid, gid := s.gid }

/-- Embedded from src/fs/fs.go `fileSystem.lookUpOrCreateDirInode`
(lines 233-251): return the already-indexed inode for the object's name, or
mint the next inode ID, build a directory inode, and register it in both
`inodes` and `dirNameIndex`. -/
def fileSystem.lookUpOrCreateDirInode (s : FsState) (o : StorageObject) :
    Inode × FsState :=
  match mapLookup s.dirNameIndex o.name with
  | some d => (d, s)
  | none =>
    let id := s.nextInodeID
    let d := Inode.dir id o.name
    (d, { s with
            nextInodeID := s.nextInodeID + 1
            inodes := mapInsert s.inodes id d
            dirNameIndex := mapInsert s.dirNameIndex d.name d })

/-- Embedded from src/fs/fs.go `fileSystem.LookUpInode` (lines 275-297), up to
but not including the "Fill out the response" block: assert the parent is a
live directory (fatal otherwise), resolve the child against the store
(not-found is a soft error), then either dedup/mint a directory inode or
report the file case as the unimplemented-capability failure
(`errors.New("TODO(jacobsa): Handle files in the same way.")`). -/
def fileSystem.lookUpInodeCore (b : Bucket) (s : FsState) (parent : Nat)
    (name : String) : FsResult Inode :=
  match mapLookup s.inodes parent with
  | none => .fatal
  | some p =>
    if p.isDir then
      match lookUpChild b p.name name with
      | none => .err .notFound s
      | some o =>
        if isDirName o.name then
          match fileSystem.lookUpOrCreateDirInode s o with
          | (d, s') => .ok d s'
        else .err .todoFiles s
    else .fatal

/-- Embedded from src/fs/fs.go `fileSystem.LookUpInode` (lines 272-306) as
written: the named return `resp` is declared at line 274 and never allocated
(every sibling method allocates its response first), so the store
`resp.Entry.Child = in.ID()` at line 300 on the success path writes through a
nil pointer and the operation faults instead of returning; the error paths
return before touching `resp`. -/
def fileSystem.LookUpInode (b : Bucket) (s : FsState) (parent : Nat)
    (name : String) : FsResult (Nat × InodeAttributes) :=
  match fileSystem.lookUpInodeCore b s parent name with
  | .ok _ _ => .fatal
  | .err e s' => .err e s'
  | .fatal => .fatal

/-- Modelled from the spec: the response fill-out of `Resolve-child` as the
signature promises (`→ (entityID, attributes)`), i.e. `LookUpInode` with its
response record actually constructed: the child's ID together with the child
entity's own attributes, exactly as line 301 computes them (no owner
overlay). -/
def fileSystem.lookUpInodeIntended (b : Bucket) (s : FsState) (parent : Nat)
    (name : String) : FsResult (Nat × InodeAttributes) :=
  match fileSystem.lookUpInodeCore b s parent name with
  | .ok d s' => .ok (d.id, d.attributes b) s'
  | .err e s' => .err e s'
  | .fatal => .fatal

/-- Embedded from src/fs/fs.go `fileSystem.GetInodeAttributes` (lines 308-338):
resolve the inode; the Directory case fetches attributes with the owner
overlay; any other case — including an absent key, whose `nil` interface value
matches no variant — hits the `default: panic` branch. -/
def fileSystem.GetInodeAttributes (b : Bucket) (s : FsState) (k : Nat) :
    FsResult InodeAttributes :=
  match mapLookup s.inodes k with
  | some d => if d.isDir then .ok (fileSystem.getAttributes b s d) s else .fatal
  | none => .fatal

/-- Embedded from src/fs/fs.go `fileSystem.OpenDir` (lines 340-362): assert the
inode exists and is a directory (fatal otherwise, via `getDirForReadingOrDie`),
mint the next handle ID and register a fresh handle for it. -/
def fileSystem.OpenDir (s : FsState) (k : Nat) : FsResult Nat :=
  match mapLookup s.inodes k with
  | none => .fatal
  | some d =>
    if d.isDir then
      .ok s.nextHandleID
        { s with
            nextHandleID := s.nextHandleID + 1
            handles := mapInsert s.handles s.nextHandleID (newDirHandle d) }
    else .fatal

/-- Embedded from src/fs/fs.go `fileSystem.ReadDir` (lines 364-379): assert the
handle exists (fatal otherwise — the type assertion on the `nil` interface
value panics), then delegate to the handle, whose cursor advance is a mutation
through its pointer and is modelled by re-storing the handle value. -/
def fileSystem.ReadDir (b : Bucket) (s : FsState) (handleID : Nat) :
    FsResult (List String) :=
  match mapLookup s.handles handleID with
  | none => .fatal
  | some dh =>
    match dh.readDir b with
    | (entries, dh') => .ok entries { s with handles := mapInsert s.handles handleID dh' }

/-- Embedded from src/fs/fs.go `fileSystem.ReleaseDirHandle` (lines 381-397):
assert presence (fatal otherwise), then delete the entry from `handles`. -/
def fileSystem.ReleaseDirHandle (s : FsState) (handleID : Nat) : FsResult Unit :=
  match mapLookup s.handles handleID with
  | none => .fatal
  | some _ => .ok () { s with handles := mapErase s.handles handleID }

/-! ## Operation sequences and reachability -/

/-- One decoded kernel request, as dispatched to the coordinator. -/
inductive FsOp where
  | opInit (uid gid : Nat)
  | opLookUp (parent : Nat) (name : String)
  | opGetAttrs (k : Nat)
  | opOpenDir (k : Nat)
  | opReadDir (handleID : Nat)
  | opRelease (handleID : Nat)

/-- The state after an operation completes; a fatal contract violation aborts
the process, so it has no successor state. -/
def FsResult.post {α : Type} : FsResult α → Option FsState
  | .ok _ s => some s
  | .err _ s => some s
  | .fatal => none

/-- State transition of one operation. The collection mutations are exactly
those of the source; for `LookUpInode` they all happen in
`lookUpOrCreateDirInode`, before the response fill-out block, so the
transition is that of `lookUpInodeCore`. -/
def fsStep (b : Bucket) (s : FsState) : FsOp → Option FsState
  | .opInit u g => (fileSystem.Init s u g).post
  | .opLookUp parent name => (fileSystem.lookUpInodeCore b s parent name).post
  | .opGetAttrs k => (fileSystem.GetInodeAttributes b s k).post
  | .opOpenDir k => (fileSystem.OpenDir s k).post
  | .opReadDir h => (fileSystem.ReadDir b s h).post
  | .opRelease h => (fileSystem.ReleaseDirHandle s h).post

/-- Run a sequence of operations from a state, stopping at the first abort. -/
def fsExec (b : Bucket) (s : FsState) : List FsOp → Option FsState
  | [] => some s
  | op :: ops =>
    match fsStep b s op with
    | none => none
    | some s' => fsExec b s' ops

/-! ## The coordinator invariant (src/fs/fs.go `checkInvariants`, lines 139-197,
and the INVARIANT comments on the struct fields) -/

/-- The consistency conditions re-derived by `fileSystem.checkInvariants`
after every lock transition, stated over the embedded state. -/
structure FsInvariant (s : FsState) : Prop where
  keysNodup : (s.inodes.map Prod.fst).Nodup
  keyGeRoot : ∀ p ∈ s.inodes, RootInodeID ≤ p.1
  keyLtNext : ∀ p ∈ s.inodes, p.1 < s.nextInodeID
  idEqKey : ∀ p ∈ s.inodes, (p.2).id = p.1
  allDir : ∀ p ∈ s.inodes, (p.2).isDir = true
  dirNames : ∀ p ∈ s.inodes, isDirName (p.2).name = true
  rootMem : mapLookup s.inodes RootInodeID = some (Inode.dir RootInodeID (""))
  idxKeysNodup : (s.dirNameIndex.map Prod.fst).Nodup
  idxSound : ∀ q ∈ s.dirNameIndex,
    (q.2).name = q.1 ∧ (q.2).isDir = true ∧ mapLookup s.inodes (q.2).id = some q.2
  idxComplete : ∀ p ∈ s.inodes, mapLookup s.dirNameIndex (p.2).name = some p.2
  idxCard : s.dirNameIndex.length = s.inodes.length
  handleKeysNodup : (s.handles.map Prod.fst).Nodup
  handleLtNext : ∀ p ∈ s.handles, p.1 < s.nextHandleID

/-- A handle identifier that has been retired: absent from the table and below
the mint counter, so no later operation can reissue it. -/
def DeadHandle (k : Nat) (s : FsState) : Prop :=
  mapLookup s.handles k = none ∧ k < s.nextHandleID

/-! ## Concrete fixtures -/

def attrsZero : InodeAttributes :=
  { size := 0, mtime := 0, mode := 0, uid := 0, gid := 0 }

/-- A store that has an object under every key, reports all-zero metadata, and
lists nothing. -/
def bucketAll : Bucket :=
  { contains := fun _ => true
    dirAttrs := fun _ => attrsZero
    listChildren := fun _ _ => [] }

/-- A store with no objects at all. -/
def bucketEmpty : Bucket :=
  { bucketAll with contains := fun _ => false }

def nameLogs : String := "logs/"

def nameFileTxt : String := "file.txt"

def rootInode : Inode := Inode.dir RootInodeID ("")

def logsInode : Inode := Inode.dir 2 nameLogs

/-- The state after mount-init with uid = gid = 500. -/
def fsInit500 : FsState :=
  { NewFileSystem with uid := 500, gid := 500 }

/-- The state after resolving the directory child "logs/" under the root,
starting from `fsInit500`. -/
def fsAfterLogs500 : FsState :=
  { fsInit500 with
      inodes := [(RootInodeID, rootInode), (2, logsInode)]
      nextInodeID := 3
      dirNameIndex := [(("" : String), rootInode), (nameLogs, logsInode)] }

/-- The same post-lookup state, but without the mount-init step. -/
def fsAfterLogs0 : FsState :=
  { fsAfterLogs500 with uid := 0, gid := 0 }

/-- The state after opening a directory handle on the root. -/
def fsOpened : FsState :=
  { NewFileSystem with
      handles := [(0, { inode := rootInode, cursor := 0 })]
      nextHandleID := 1 }

/-! ## Map lemmas -/

theorem mapLookup_insert_self {α β : Type} [DecidableEq α] (m : List (α × β)) (k : α) (v : β) :
    mapLookup (mapInsert m k v) k = some v := by
  induction m with
  | nil => simp [mapInsert, mapLookup]
  | cons p m ih =>
    obtain ⟨k', v'⟩ := p
    by_cases h : k' = k
    · simp [mapInsert, h, mapLookup]
    · simp [mapInsert, h, mapLookup, ih]

theorem mapLookup_insert_ne {α β : Type} [DecidableEq α] (m : List (α × β)) (k : α) (v : β)
    (k' : α) (h : k ≠ k') : mapLookup (mapInsert m k v) k' = mapLookup m k' := by
  induction m with
  | nil => simp [mapInsert, mapLookup, h]
  | cons p m ih =>
    obtain ⟨k₀, v₀⟩ := p
    by_cases h₀ : k₀ = k
    · subst h₀
      simp [mapInsert, mapLookup, h]
    · simp [mapInsert, h₀, mapLookup, ih]

theorem mapInsert_of_lookup_none {α β : Type} [DecidableEq α] {m : List (α × β)} {k : α}
    (v : β) (h : mapLookup m k = none) : mapInsert m k v = m ++ [(k, v)] := by
  induction m with
  | nil => simp [mapInsert]
  | cons p m ih =>
    obtain ⟨k₀, v₀⟩ := p
    by_cases h₀ : k₀ = k
    · simp [mapLookup, h₀] at h
    · simp [mapLookup, h₀] at h
      simp [mapInsert, h₀, ih h]

theorem mem_mapInsert {α β : Type} [DecidableEq α] {m : List (α × β)} {k : α} {v : β}
    {p : α × β} (h : p ∈ mapInsert m k v) : p = (k, v) ∨ p ∈ m := by
  induction m with
  | nil => simpa [mapInsert] using h
  | cons q m ih =>
    obtain ⟨k₀, v₀⟩ := q
    by_cases h₀ : k₀ = k
    · simp only [mapInsert, if_pos h₀] at h
      rcases List.mem_cons.mp h with h | h
      · exact Or.inl h
      · exact Or.inr (List.mem_cons_of_mem _ h)
    · simp only [mapInsert, if_neg h₀] at h
      rcases List.mem_cons.mp h with h | h
      · exact Or.inr (h ▸ List.mem_cons_self _ _)
      · rcases ih h with h | h
        · exact Or.inl h
        · exact Or.inr (List.mem_cons_of_mem _ h)

theorem forall_ne_of_mapLookup_none {α β : Type} [DecidableEq α] {m : List (α × β)} {k : α}
    (h : mapLookup m k = none) : ∀ p ∈ m, p.1 ≠ k := by
  induction m with
  | nil => simp
  | cons q m ih =>
    obtain ⟨k₀, v₀⟩ := q
    by_cases h₀ : k₀ = k
    · simp [mapLookup, h₀] at h
    · simp [mapLookup, h₀] at h
      intro p hp
      rcases List.mem_cons.mp hp with rfl | hp
      · exact h₀
      · exact ih h p hp

theorem mapLookup_none_of_forall_ne {α β : Type} [DecidableEq α] {m : List (α × β)} {k : α}
    (h : ∀ p ∈ m, p.1 ≠ k) : mapLookup m k = none := by
  induction m with
  | nil => rfl
  | cons q m ih =>
    obtain ⟨k₀, v₀⟩ := q
    have hk₀ : k₀ ≠ k := h (k₀, v₀) (List.mem_cons_self _ _)
    simp only [mapLookup, if_neg hk₀]
    exact ih fun p hp => h p (List.mem_cons_of_mem _ hp)

theorem mem_of_mapLookup_some {α β : Type} [DecidableEq α] {m : List (α × β)} {k : α} {v : β}
    (h : mapLookup m k = some v) : (k, v) ∈ m := by
  induction m with
  | nil => simp [mapLookup] at h
  | cons q m ih =>
    obtain ⟨k₀, v₀⟩ := q
    by_cases h₀ : k₀ = k
    · subst h₀
      simp [mapLookup] at h
      simp [h]
    · simp [mapLookup, h₀] at h
      exact List.mem_cons_of_mem _ (ih h)

theorem mapLookup_some_of_mem {α β : Type} [DecidableEq α] {m : List (α × β)}
    (hnd : (m.map Prod.fst).Nodup) {k : α} {v : β} (h : (k, v) ∈ m) :
    mapLookup m k = some v := by
  induction m with
  | nil => simp at h
  | cons q m ih =>
    obtain ⟨k₀, v₀⟩ := q
    simp only [List.map_cons, List.nodup_cons] at hnd
    rcases List.mem_cons.mp h with h | h
    · obtain ⟨rfl, rfl⟩ := Prod.mk.injEq .. ▸ h
      simp [mapLookup]
    · have hk₀ : k₀ ≠ k := by
        intro heq
        subst heq
        exact hnd.1 (List.mem_map_of_mem Prod.fst h)
      simp [mapLookup, hk₀]
      exact ih hnd.2 h

theorem mapLookup_append_left {α β : Type} [DecidableEq α] {m : List (α × β)} {k : α} {v : β}
    (m₂ : List (α × β)) (h : mapLookup m k = some v) :
    mapLookup (m ++ m₂) k = some v := by
  induction m with
  | nil => simp [mapLookup] at h
  | cons q m ih =>
    obtain ⟨k₀, v₀⟩ := q
    by_cases h₀ : k₀ = k
    · subst h₀
      simp_all [mapLookup]
    · simp [mapLookup, h₀] at h ⊢
      exact ih h

theorem mapLookup_append_right {α β : Type} [DecidableEq α] {m m₂ : List (α × β)} {k : α}
    (h : mapLookup m k = none) : mapLookup (m ++ m₂) k = mapLookup m₂ k := by
  induction m with
  | nil => simp
  | cons q m ih =>
    obtain ⟨k₀, v₀⟩ := q
    by_cases h₀ : k₀ = k
    · simp [mapLookup, h₀] at h
    · simp [mapLookup, h₀] at h ⊢
      exact ih h

theorem keys_mapInsert_of_lookup_some {α β : Type} [DecidableEq α] {m : List (α × β)} {k : α}
    {w : β} (v : β) (h : mapLookup m k = some w) :
    (mapInsert m k v).map Prod.fst = m.map Prod.fst := by
  induction m with
  | nil => simp [mapLookup] at h
  | cons q m ih =>
    obtain ⟨k₀, v₀⟩ := q
    by_cases h₀ : k₀ = k
    · subst h₀
      simp [mapInsert]
    · simp [mapLookup, h₀] at h
      simp [mapInsert, h₀, ih h]

theorem mem_mapErase {α β : Type} [DecidableEq α] {m : List (α × β)} {k : α} {p : α × β} :
    p ∈ mapErase m k ↔ p ∈ m ∧ p.1 ≠ k := by
  simp [mapErase, List.mem_filter]

theorem mapLookup_mapErase_self {α β : Type} [DecidableEq α] (m : List (α × β)) (k : α) :
    mapLookup (mapErase m k) k = none := by
  apply mapLookup_none_of_forall_ne
  intro p hp
  exact (mem_mapErase.mp hp).2

theorem mapErase_cons {α β : Type} [DecidableEq α] (k₀ : α) (v₀ : β) (m : List (α × β))
    (k : α) : mapErase ((k₀, v₀) :: m) k =
      if k₀ = k then mapErase m k else (k₀, v₀) :: mapErase m k := by
  by_cases h : k₀ = k <;> simp [mapErase, List.filter_cons, h]

theorem mapLookup_mapErase_ne {α β : Type} [DecidableEq α] (m : List (α × β)) (k k' : α)
    (h : k' ≠ k) : mapLookup (mapErase m k) k' = mapLookup m k' := by
  induction m with
  | nil => rfl
  | cons q m ih =>
    obtain ⟨k₀, v₀⟩ := q
    rw [mapErase_cons]
    by_cases h₀ : k₀ = k
    · subst h₀
      have hne : ¬ k₀ = k' := fun e => h e.symm
      simp [mapLookup, hne, ih]
    · rw [if_neg h₀]
      by_cases hk : k₀ = k' <;> simp [mapLookup, hk, ih]

theorem keys_mapErase_sublist {α β : Type} [DecidableEq α] (m : List (α × β)) (k : α) :
    List.Sublist ((mapErase m k).map Prod.fst) (m.map Prod.fst) :=
  List.Sublist.map Prod.fst (List.filter_sublist m)

/-! ## Directory-name lemmas -/

theorem string_data_append (a c : String) : (a ++ c).data = a.data ++ c.data := rfl

theorem string_eq_empty_iff_data (c : String) : c = ("") ↔ c.data = [] := by
  constructor
  · intro h
    rw [h]
  · intro h
    cases c
    simp at h
    simp [h]

theorem isDirName_append_of_false {c : String} (a : String) (h : isDirName c = false) :
    isDirName (a ++ c) = false := by
  simp only [isDirName, Bool.or_eq_false_iff, decide_eq_false_iff_not] at h ⊢
  obtain ⟨hne, hlast⟩ := h
  have hdata : c.data ≠ [] := fun hd => hne ((string_eq_empty_iff_data c).mpr hd)
  constructor
  · intro happ
    have : (a ++ c).data = [] := (string_eq_empty_iff_data _).mp happ
    rw [string_data_append] at this
    exact hdata (List.append_eq_nil.mp this).2
  · rw [string_data_append, List.getLast?_append]
    intro hsome
    rcases Option.or_eq_some.mp hsome with hc | ⟨hcnone, _⟩
    · exact hlast hc
    · exact hdata (List.getLast?_eq_none_iff.mp hcnone)

theorem isDirName_append_of_true {a c : String} (ha : isDirName a = true)
    (hc : isDirName c = true) : isDirName (a ++ c) = true := by
  simp only [isDirName, Bool.or_eq_true, decide_eq_true_eq] at ha hc ⊢
  rcases hc with hc | hc
  · subst hc
    rcases ha with ha | ha
    · subst ha
      left
      rfl
    · right
      rw [string_data_append]
      simpa using ha
  · right
    rw [string_data_append, List.getLast?_append]
    have : c.data ≠ [] := by
      intro hd
      rw [List.getLast?_eq_none_iff.mpr hd] at hc
      exact Option.noConfusion hc
    simp [hc]

/-! ## Key-freshness helpers -/

theorem not_mem_keys_of_lookup_none {α β : Type} [DecidableEq α] {m : List (α × β)} {k : α}
    (h : mapLookup m k = none) : k ∉ m.map Prod.fst := by
  intro hmem
  obtain ⟨p, hp, hpk⟩ := List.mem_map.mp hmem
  exact forall_ne_of_mapLookup_none h p hp hpk

theorem lookup_nextInodeID_none {s : FsState} (hInv : FsInvariant s) :
    mapLookup s.inodes s.nextInodeID = none :=
  mapLookup_none_of_forall_ne fun p hp => Nat.ne_of_lt (hInv.keyLtNext p hp)

theorem lookup_nextHandleID_none {s : FsState} (hInv : FsInvariant s) :
    mapLookup s.handles s.nextHandleID = none :=
  mapLookup_none_of_forall_ne fun p hp => Nat.ne_of_lt (hInv.handleLtNext p hp)

theorem root_lt_nextInodeID {s : FsState} (hInv : FsInvariant s) :
    RootInodeID < s.nextInodeID :=
  hInv.keyLtNext _ (mem_of_mapLookup_some hInv.rootMem)

/-! ## lookUpOrCreateDirInode lemmas -/

theorem luocd_hit {s : FsState} {o : StorageObject} {d : Inode}
    (h : mapLookup s.dirNameIndex o.name = some d) :
    fileSystem.lookUpOrCreateDirInode s o = (d, s) := by
  simp [fileSystem.lookUpOrCreateDirInode, h]

theorem luocd_miss {s : FsState} {o : StorageObject}
    (h : mapLookup s.dirNameIndex o.name = none) :
    fileSystem.lookUpOrCreateDirInode s o =
      (Inode.dir s.nextInodeID o.name,
       { s with
           nextInodeID := s.nextInodeID + 1
           inodes := mapInsert s.inodes s.nextInodeID (Inode.dir s.nextInodeID o.name)
           dirNameIndex :=
             mapInsert s.dirNameIndex o.name (Inode.dir s.nextInodeID o.name) }) := by
  simp [fileSystem.lookUpOrCreateDirInode, h, Inode.name]

theorem luocd_invariant {s : FsState} {o : StorageObject} {d : Inode} {s' : FsState}
    (hInv : FsInvariant s) (ho : isDirName o.name = true)
    (h : fileSystem.lookUpOrCreateDirInode s o = (d, s')) : FsInvariant s' := by
  cases hidx : mapLookup s.dirNameIndex o.name with
  | some d₀ =>
    rw [luocd_hit hidx] at h
    injection h with h1 h2
    subst h2
    exact hInv
  | none =>
    rw [luocd_miss hidx] at h
    injection h with h1 h2
    subst h1
    subst h2
    have hfresh : mapLookup s.inodes s.nextInodeID = none := lookup_nextInodeID_none hInv
    have hkeys := mapInsert_of_lookup_none (Inode.dir s.nextInodeID o.name) hfresh
    have hidxkeys := mapInsert_of_lookup_none (Inode.dir s.nextInodeID o.name) hidx
    have hrootlt : RootInodeID < s.nextInodeID := root_lt_nextInodeID hInv
    constructor
    · show (mapInsert s.inodes s.nextInodeID (Inode.dir s.nextInodeID o.name)).map
        Prod.fst |>.Nodup
      rw [hkeys, List.map_append]
      rw [List.nodup_append]
      refine ⟨hInv.keysNodup, List.nodup_singleton _, ?_⟩
      intro x hx hx'
      simp at hx'
      subst hx'
      exact not_mem_keys_of_lookup_none hfresh hx
    · intro p hp
      rw [hkeys] at hp
      rcases List.mem_append.mp hp with hp | hp
      · exact hInv.keyGeRoot p hp
      · simp at hp
        subst hp
        exact Nat.le_of_lt hrootlt
    · intro p hp
      rw [hkeys] at hp
      rcases List.mem_append.mp hp with hp | hp
      · exact Nat.lt_succ_of_lt (hInv.keyLtNext p hp)
      · simp at hp
        subst hp
        exact Nat.lt_succ_self _
    · intro p hp
      rw [hkeys] at hp
      rcases List.mem_append.mp hp with hp | hp
      · exact hInv.idEqKey p hp
      · simp at hp
        subst hp
        rfl
    · intro p hp
      rw [hkeys] at hp
      rcases List.mem_append.mp hp with hp | hp
      · exact hInv.allDir p hp
      · simp at hp
        subst hp
        rfl
    · intro p hp
      rw [hkeys] at hp
      rcases List.mem_append.mp hp with hp | hp
      · exact hInv.dirNames p hp
      · simp at hp
        subst hp
        exact ho
    · show mapLookup (mapInsert s.inodes s.nextInodeID (Inode.dir s.nextInodeID o.name))
        RootInodeID = some (Inode.dir RootInodeID (""))
      rw [hkeys]
      exact mapLookup_append_left _ hInv.rootMem
    · show (mapInsert s.dirNameIndex o.name (Inode.dir s.nextInodeID o.name)).map
        Prod.fst |>.Nodup
      rw [hidxkeys, List.map_append, List.nodup_append]
      refine ⟨hInv.idxKeysNodup, List.nodup_singleton _, ?_⟩
      intro x hx hx'
      simp at hx'
      subst hx'
      exact not_mem_keys_of_lookup_none hidx hx
    · intro q hq
      rw [hidxkeys] at hq
      rcases List.mem_append.mp hq with hq | hq
      · obtain ⟨h1, h2, h3⟩ := hInv.idxSound q hq
        refine ⟨h1, h2, ?_⟩
        show mapLookup (mapInsert s.inodes s.nextInodeID (Inode.dir s.nextInodeID o.name))
          (q.2).id = some q.2
        rw [hkeys]
        exact mapLookup_append_left _ h3
      · simp at hq
        subst hq
        refine ⟨rfl, rfl, ?_⟩
        show mapLookup (mapInsert s.inodes s.nextInodeID (Inode.dir s.nextInodeID o.name))
          (Inode.dir s.nextInodeID o.name).id = some (Inode.dir s.nextInodeID o.name)
        rw [hkeys]
        rw [show (Inode.dir s.nextInodeID o.name).id = s.nextInodeID from rfl]
        rw [mapLookup_append_right hfresh]
        simp [mapLookup]
    · intro p hp
      rw [hkeys] at hp
      rcases List.mem_append.mp hp with hp | hp
      · show mapLookup (mapInsert s.dirNameIndex o.name (Inode.dir s.nextInodeID o.name))
          (p.2).name = some p.2
        rw [hidxkeys]
        exact mapLookup_append_left _ (hInv.idxComplete p hp)
      · simp at hp
        subst hp
        show mapLookup (mapInsert s.dirNameIndex o.name (Inode.dir s.nextInodeID o.name))
          (Inode.dir s.nextInodeID o.name).name = some (Inode.dir s.nextInodeID o.name)
        rw [hidxkeys]
        rw [show (Inode.dir s.nextInodeID o.name).name = o.name from rfl]
        rw [mapLookup_append_right hidx]
        simp [mapLookup]
    · show (mapInsert s.dirNameIndex o.name (Inode.dir s.nextInodeID o.name)).length =
        (mapInsert s.inodes s.nextInodeID (Inode.dir s.nextInodeID o.name)).length
      rw [hkeys, hidxkeys]
      simp [hInv.idxCard]
    · exact hInv.handleKeysNodup
    · exact hInv.handleLtNext

/-! ## Invariant preservation across operations -/

theorem fsInvariant_init : FsInvariant NewFileSystem := by
  constructor <;> decide

theorem fsStep_invariant (b : Bucket) {s s' : FsState} {op : FsOp}
    (hInv : FsInvariant s) (h : fsStep b s op = some s') : FsInvariant s' := by
  cases op with
  | opInit u g =>
    simp only [fsStep, fileSystem.Init, FsResult.post, Option.some.injEq] at h
    subst h
    exact ⟨hInv.keysNodup, hInv.keyGeRoot, hInv.keyLtNext, hInv.idEqKey, hInv.allDir,
      hInv.dirNames, hInv.rootMem, hInv.idxKeysNodup, hInv.idxSound, hInv.idxComplete,
      hInv.idxCard, hInv.handleKeysNodup, hInv.handleLtNext⟩
  | opLookUp parent name =>
    simp only [fsStep, fileSystem.lookUpInodeCore] at h
    cases hp : mapLookup s.inodes parent with
    | none => simp [hp, FsResult.post] at h
    | some p =>
      cases hpd : p.isDir with
      | false => simp [hp, hpd, FsResult.post] at h
      | true =>
        cases hl : lookUpChild b p.name name with
        | none =>
          simp [hp, hpd, hl, FsResult.post] at h
          subst h
          exact hInv
        | some o =>
          cases ho : isDirName o.name with
          | false =>
            simp [hp, hpd, hl, ho, FsResult.post] at h
            subst h
            exact hInv
          | true =>
            rcases hlu : fileSystem.lookUpOrCreateDirInode s o with ⟨d, s₀⟩
            simp [hp, hpd, hl, ho, hlu, FsResult.post] at h
            subst h
            exact luocd_invariant hInv ho hlu
  | opGetAttrs k =>
    simp only [fsStep, fileSystem.GetInodeAttributes] at h
    cases hk : mapLookup s.inodes k with
    | none => simp [hk, FsResult.post] at h
    | some d =>
      cases hd : d.isDir with
      | false => simp [hk, hd, FsResult.post] at h
      | true =>
        simp [hk, hd, FsResult.post] at h
        subst h
        exact hInv
  | opOpenDir k =>
    simp only [fsStep, fileSystem.OpenDir] at h
    cases hk : mapLookup s.inodes k with
    | none => simp [hk, FsResult.post] at h
    | some d =>
      cases hd : d.isDir with
      | false => simp [hk, hd, FsResult.post] at h
      | true =>
        simp [hk, hd, FsResult.post] at h
        subst h
        have hfresh : mapLookup s.handles s.nextHandleID = none :=
          lookup_nextHandleID_none hInv
        have hkeys := mapInsert_of_lookup_none (newDirHandle d) hfresh
        refine ⟨hInv.keysNodup, hInv.keyGeRoot, hInv.keyLtNext, hInv.idEqKey, hInv.allDir,
          hInv.dirNames, hInv.rootMem, hInv.idxKeysNodup, hInv.idxSound, hInv.idxComplete,
          hInv.idxCard, ?_, ?_⟩
        · show (mapInsert s.handles s.nextHandleID (newDirHandle d)).map Prod.fst |>.Nodup
          rw [hkeys, List.map_append, List.nodup_append]
          refine ⟨hInv.handleKeysNodup, List.nodup_singleton _, ?_⟩
          intro x hx hx'
          simp at hx'
          subst hx'
          exact not_mem_keys_of_lookup_none hfresh hx
        · intro p hp
          show p.1 < s.nextHandleID + 1
          rw [hkeys] at hp
          rcases List.mem_append.mp hp with hp | hp
          · exact Nat.lt_succ_of_lt (hInv.handleLtNext p hp)
          · simp at hp
            subst hp
            exact Nat.lt_succ_self _
  | opReadDir hid =>
    simp only [fsStep, fileSystem.ReadDir] at h
    cases hk : mapLookup s.handles hid with
    | none => simp [hk, FsResult.post] at h
    | some dh =>
      simp [hk, FsResult.post] at h
      subst h
      refine ⟨hInv.keysNodup, hInv.keyGeRoot, hInv.keyLtNext, hInv.idEqKey, hInv.allDir,
        hInv.dirNames, hInv.rootMem, hInv.idxKeysNodup, hInv.idxSound, hInv.idxComplete,
        hInv.idxCard, ?_, ?_⟩
      · show (mapInsert s.handles hid (dh.readDir b).2).map Prod.fst |>.Nodup
        rw [keys_mapInsert_of_lookup_some _ hk]
        exact hInv.handleKeysNodup
      · intro p hp
        show p.1 < s.nextHandleID
        rcases mem_mapInsert hp with hp | hp
        · subst hp
          exact hInv.handleLtNext (hid, dh) (mem_of_mapLookup_some hk)
        · exact hInv.handleLtNext p hp
  | opRelease hid =>
    simp only [fsStep, fileSystem.ReleaseDirHandle] at h
    cases hk : mapLookup s.handles hid with
    | none => simp [hk, FsResult.post] at h
    | some dh =>
      simp [hk, FsResult.post] at h
      subst h
      refine ⟨hInv.keysNodup, hInv.keyGeRoot, hInv.keyLtNext, hInv.idEqKey, hInv.allDir,
        hInv.dirNames, hInv.rootMem, hInv.idxKeysNodup, hInv.idxSound, hInv.idxComplete,
        hInv.idxCard, ?_, ?_⟩
      · exact hInv.handleKeysNodup.sublist (keys_mapErase_sublist s.handles hid)
      · intro p hp
        exact hInv.handleLtNext p (mem_mapErase.mp hp).1

theorem fsExec_invariant (b : Bucket) {s : FsState} {ops : List FsOp} {s' : FsState}
    (hInv : FsInvariant s) (h : fsExec b s ops = some s') : FsInvariant s' := by
  induction ops generalizing s with
  | nil =>
    simp only [fsExec, Option.some.injEq] at h
    subst h
    exact hInv
  | cons op ops ih =>
    simp only [fsExec] at h
    cases hstep : fsStep b s op with
    | none => rw [hstep] at h; exact absurd h (by simp)
    | some s₀ =>
      rw [hstep] at h
      exact ih (fsStep_invariant b hInv hstep) h

/-! ## Further operation-level lemmas -/

theorem lookUpChild_some_eq {b : Bucket} {pn cn : String} {o : StorageObject}
    (h : lookUpChild b pn cn = some o) :
    b.contains (pn ++ cn) = true ∧ o = ⟨pn ++ cn⟩ := by
  by_cases hc : b.contains (pn ++ cn) = true
  · simp only [lookUpChild, if_pos hc, Option.some.injEq] at h
    exact ⟨hc, h.symm⟩
  · simp only [lookUpChild, if_neg hc] at h
    exact Option.noConfusion h

theorem lookUpChild_of_contains {b : Bucket} {pn cn : String}
    (hc : b.contains (pn ++ cn) = true) :
    lookUpChild b pn cn = some ⟨pn ++ cn⟩ := by
  simp [lookUpChild, hc]

theorem luocd_props {s : FsState} {o : StorageObject} {d : Inode} {s' : FsState}
    (hInv : FsInvariant s) (h : fileSystem.lookUpOrCreateDirInode s o = (d, s')) :
    d.name = o.name ∧ d.isDir = true ∧
    mapLookup s'.dirNameIndex o.name = some d ∧
    mapLookup s'.inodes d.id = some d ∧
    (∀ k v, mapLookup s.inodes k = some v → mapLookup s'.inodes k = some v) := by
  cases hidx : mapLookup s.dirNameIndex o.name with
  | some d₀ =>
    rw [luocd_hit hidx] at h
    injection h with h1 h2
    subst h1
    subst h2
    obtain ⟨hn, hdir, hmem⟩ := hInv.idxSound (o.name, d₀) (mem_of_mapLookup_some hidx)
    exact ⟨hn, hdir, hidx, hmem, fun k v hv => hv⟩
  | none =>
    rw [luocd_miss hidx] at h
    injection h with h1 h2
    subst h1
    subst h2
    have hfresh : mapLookup s.inodes s.nextInodeID = none := lookup_nextInodeID_none hInv
    have hkeys := mapInsert_of_lookup_none (Inode.dir s.nextInodeID o.name) hfresh
    have hidxkeys := mapInsert_of_lookup_none (Inode.dir s.nextInodeID o.name) hidx
    refine ⟨rfl, rfl, ?_, ?_, ?_⟩
    · show mapLookup (mapInsert s.dirNameIndex o.name (Inode.dir s.nextInodeID o.name))
        o.name = some (Inode.dir s.nextInodeID o.name)
      rw [hidxkeys, mapLookup_append_right hidx]
      simp [mapLookup]
    · show mapLookup (mapInsert s.inodes s.nextInodeID (Inode.dir s.nextInodeID o.name))
        (Inode.dir s.nextInodeID o.name).id = some (Inode.dir s.nextInodeID o.name)
      rw [hkeys, show (Inode.dir s.nextInodeID o.name).id = s.nextInodeID from rfl,
        mapLookup_append_right hfresh]
      simp [mapLookup]
    · intro k v hv
      show mapLookup (mapInsert s.inodes s.nextInodeID (Inode.dir s.nextInodeID o.name))
        k = some v
      rw [hkeys]
      exact mapLookup_append_left _ hv

theorem luocd_handles {s : FsState} {o : StorageObject} {d : Inode} {s' : FsState}
    (h : fileSystem.lookUpOrCreateDirInode s o = (d, s')) :
    s'.handles = s.handles ∧ s'.nextHandleID = s.nextHandleID := by
  cases hidx : mapLookup s.dirNameIndex o.name with
  | some d₀ =>
    rw [luocd_hit hidx] at h
    injection h with h1 h2
    subst h2
    exact ⟨rfl, rfl⟩
  | none =>
    rw [luocd_miss hidx] at h
    injection h with h1 h2
    subst h2
    exact ⟨rfl, rfl⟩

theorem lookUpInodeCore_eq_ok {b : Bucket} {s : FsState} {parent : Nat} {p : Inode}
    {childName : String} {o : StorageObject} {d : Inode} {s' : FsState}
    (hp : mapLookup s.inodes parent = some p) (hpd : p.isDir = true)
    (hl : lookUpChild b p.name childName = some o) (ho : isDirName o.name = true)
    (hlu : fileSystem.lookUpOrCreateDirInode s o = (d, s')) :
    fileSystem.lookUpInodeCore b s parent childName = FsResult.ok d s' := by
  simp [fileSystem.lookUpInodeCore, hp, hpd, hl, ho, hlu]

theorem readDir_fatal_of_none {b : Bucket} {s : FsState} {k : Nat}
    (h : mapLookup s.handles k = none) : fileSystem.ReadDir b s k = FsResult.fatal := by
  simp [fileSystem.ReadDir, h]

theorem fsStep_deadHandle (b : Bucket) {k : Nat} {s s' : FsState} {op : FsOp}
    (hd : DeadHandle k s) (h : fsStep b s op = some s') : DeadHandle k s' := by
  obtain ⟨hnone, hlt⟩ := hd
  cases op with
  | opInit u g =>
    simp only [fsStep, fileSystem.Init, FsResult.post, Option.some.injEq] at h
    subst h
    exact ⟨hnone, hlt⟩
  | opLookUp parent name =>
    simp only [fsStep, fileSystem.lookUpInodeCore] at h
    cases hp : mapLookup s.inodes parent with
    | none => simp [hp, FsResult.post] at h
    | some p =>
      cases hpd : p.isDir with
      | false => simp [hp, hpd, FsResult.post] at h
      | true =>
        cases hl : lookUpChild b p.name name with
        | none =>
          simp [hp, hpd, hl, FsResult.post] at h
          subst h
          exact ⟨hnone, hlt⟩
        | some o =>
          cases ho : isDirName o.name with
          | false =>
            simp [hp, hpd, hl, ho, FsResult.post] at h
            subst h
            exact ⟨hnone, hlt⟩
          | true =>
            rcases hlu : fileSystem.lookUpOrCreateDirInode s o with ⟨d, s₀⟩
            simp [hp, hpd, hl, ho, hlu, FsResult.post] at h
            subst h
            obtain ⟨hh, hn⟩ := luocd_handles hlu
            rw [DeadHandle, hh, hn]
            exact ⟨hnone, hlt⟩
  | opGetAttrs k₀ =>
    simp only [fsStep, fileSystem.GetInodeAttributes] at h
    cases hk : mapLookup s.inodes k₀ with
    | none => simp [hk, FsResult.post] at h
    | some d =>
      cases hdir : d.isDir with
      | false => simp [hk, hdir, FsResult.post] at h
      | true =>
        simp [hk, hdir, FsResult.post] at h
        subst h
        exact ⟨hnone, hlt⟩
  | opOpenDir k₀ =>
    simp only [fsStep, fileSystem.OpenDir] at h
    cases hk : mapLookup s.inodes k₀ with
    | none => simp [hk, FsResult.post] at h
    | some d =>
      cases hdir : d.isDir with
      | false => simp [hk, hdir, FsResult.post] at h
      | true =>
        simp [hk, hdir, FsResult.post] at h
        subst h
        refine ⟨?_, Nat.lt_succ_of_lt hlt⟩
        show mapLookup (mapInsert s.handles s.nextHandleID (newDirHandle d)) k = none
        rw [mapLookup_insert_ne _ _ _ _ (Nat.ne_of_gt hlt)]
        exact hnone
  | opReadDir hid =>
    simp only [fsStep, fileSystem.ReadDir] at h
    cases hk : mapLookup s.handles hid with
    | none => simp [hk, FsResult.post] at h
    | some dh =>
      simp [hk, FsResult.post] at h
      subst h
      refine ⟨?_, hlt⟩
      show mapLookup (mapInsert s.handles hid (dh.readDir b).2) k = none
      have hne : hid ≠ k := by
        intro heq
        subst heq
        rw [hnone] at hk
        exact Option.noConfusion hk
      rw [mapLookup_insert_ne _ _ _ _ hne]
      exact hnone
  | opRelease hid =>
    simp only [fsStep, fileSystem.ReleaseDirHandle] at h
    cases hk : mapLookup s.handles hid with
    | none => simp [hk, FsResult.post] at h
    | some dh =>
      simp [hk, FsResult.post] at h
      subst h
      refine ⟨?_, hlt⟩
      show mapLookup (mapErase s.handles hid) k = none
      by_cases heq : k = hid
      · subst heq
        exact mapLookup_mapErase_self _ _
      · rw [mapLookup_mapErase_ne _ _ _ heq]
        exact hnone

theorem fsExec_deadHandle (b : Bucket) {k : Nat} {s : FsState} {ops : List FsOp}
    {s' : FsState} (hd : DeadHandle k s) (h : fsExec b s ops = some s') :
    DeadHandle k s' := by
  induction ops generalizing s with
  | nil =>
    simp only [fsExec, Option.some.injEq] at h
    subst h
    exact hd
  | cons op ops ih =>
    simp only [fsExec] at h
    cases hstep : fsStep b s op with
    | none => rw [hstep] at h; exact absurd h (by simp)
    | some s₀ =>
      rw [hstep] at h
      exact ih (fsStep_deadHandle b hd hstep) h

theorem fsStep_mint_or_same (b : Bucket) {s s' : FsState} (hInv : FsInvariant s) {op : FsOp}
    (h : fsStep b s op = some s') :
    (s'.inodes = s.inodes ∧ s'.nextInodeID = s.nextInodeID) ∨
    (s'.nextInodeID = s.nextInodeID + 1 ∧ mapLookup s.inodes s.nextInodeID = none ∧
      ∃ d : Inode, d.id = s.nextInodeID ∧
        s'.inodes = s.inodes ++ [(s.nextInodeID, d)]) := by
  cases op with
  | opInit u g =>
    simp only [fsStep, fileSystem.Init, FsResult.post, Option.some.injEq] at h
    subst h
    exact Or.inl ⟨rfl, rfl⟩
  | opLookUp parent name =>
    simp only [fsStep, fileSystem.lookUpInodeCore] at h
    cases hp : mapLookup s.inodes parent with
    | none => simp [hp, FsResult.post] at h
    | some p =>
      cases hpd : p.isDir with
      | false => simp [hp, hpd, FsResult.post] at h
      | true =>
        cases hl : lookUpChild b p.name name with
        | none =>
          simp [hp, hpd, hl, FsResult.post] at h
          subst h
          exact Or.inl ⟨rfl, rfl⟩
        | some o =>
          cases ho : isDirName o.name with
          | false =>
            simp [hp, hpd, hl, ho, FsResult.post] at h
            subst h
            exact Or.inl ⟨rfl, rfl⟩
          | true =>
            rcases hlu : fileSystem.lookUpOrCreateDirInode s o with ⟨d, s₀⟩
            simp [hp, hpd, hl, ho, hlu, FsResult.post] at h
            subst h
            cases hidx : mapLookup s.dirNameIndex o.name with
            | some d₀ =>
              rw [luocd_hit hidx] at hlu
              injection hlu with h1 h2
              subst h2
              exact Or.inl ⟨rfl, rfl⟩
            | none =>
              rw [luocd_miss hidx] at hlu
              injection hlu with h1 h2
              subst h2
              have hfresh : mapLookup s.inodes s.nextInodeID = none :=
                lookup_nextInodeID_none hInv
              refine Or.inr ⟨rfl, hfresh, Inode.dir s.nextInodeID o.name, rfl, ?_⟩
              exact mapInsert_of_lookup_none _ hfresh
  | opGetAttrs k =>
    simp only [fsStep, fileSystem.GetInodeAttributes] at h
    cases hk : mapLookup s.inodes k with
    | none => simp [hk, FsResult.post] at h
    | some d =>
      cases hdir : d.isDir with
      | false => simp [hk, hdir, FsResult.post] at h
      | true =>
        simp [hk, hdir, FsResult.post] at h
        subst h
        exact Or.inl ⟨rfl, rfl⟩
  | opOpenDir k =>
    simp only [fsStep, fileSystem.OpenDir] at h
    cases hk : mapLookup s.inodes k with
    | none => simp [hk, FsResult.post] at h
    | some d =>
      cases hdir : d.isDir with
      | false => simp [hk, hdir, FsResult.post] at h
      | true =>
        simp [hk, hdir, FsResult.post] at h
        subst h
        exact Or.inl ⟨rfl, rfl⟩
  | opReadDir hid =>
    simp only [fsStep, fileSystem.ReadDir] at h
    cases hk : mapLookup s.handles hid with
    | none => simp [hk, FsResult.post] at h
    | some dh =>
      simp [hk, FsResult.post] at h
      subst h
      exact Or.inl ⟨rfl, rfl⟩
  | opRelease hid =>
    simp only [fsStep, fileSystem.ReleaseDirHandle] at h
    cases hk : mapLookup s.handles hid with
    | none => simp [hk, FsResult.post] at h
    | some dh =>
      simp [hk, FsResult.post] at h
      subst h
      exact Or.inl ⟨rfl, rfl⟩

theorem countP_key_eq_one {α β : Type} [DecidableEq α] {m : List (α × β)}
    (hnd : (m.map Prod.fst).Nodup) {k : α} {v : β} (h : (k, v) ∈ m) :
    m.countP (fun q => decide (q.1 = k)) = 1 := by
  induction m with
  | nil => simp at h
  | cons q m ih =>
    obtain ⟨k₀, v₀⟩ := q
    simp only [List.map_cons, List.nodup_cons] at hnd
    rcases List.mem_cons.mp h with h | h
    · injection h with h1 h2
      subst h1
      rw [List.countP_cons]
      have htail : m.countP (fun q => decide (q.1 = k)) = 0 := by
        rw [List.countP_eq_zero]
        intro a ha
        simp only [decide_eq_true_eq]
        intro heq
        exact hnd.1 (heq ▸ List.mem_map_of_mem Prod.fst ha)
      simp [htail]
    · have hne : k₀ ≠ k := by
        intro heq
        subst heq
        exact hnd.1 (List.mem_map_of_mem Prod.fst h)
      rw [List.countP_cons]
      simp [hne, ih hnd.2 h]

/-! ## Claims -/

/-- C1: the claim says a resolve-child call on a live directory parent with a
directory-like child name and a successful store lookup returns normally with
the child's identifier and attributes and does not abort. The source violates
this: `LookUpInode` never allocates its named return `resp` (unlike every
sibling method) and writes `resp.Entry.Child` through the nil pointer, so the
success path aborts. At the concrete input resolve-child(root, "logs/") with
"logs/" present in the store, the lookup core succeeds — the child inode 2 is
minted and registered — yet the operation as written is fatal; with the
response allocation repaired it would return (2, attrs) as the claim states. -/
theorem lookUpInode_success_path_aborts :
    fileSystem.lookUpInodeCore bucketAll NewFileSystem RootInodeID nameLogs =
      FsResult.ok logsInode fsAfterLogs0 ∧
    fileSystem.LookUpInode bucketAll NewFileSystem RootInodeID nameLogs =
      FsResult.fatal ∧
    fileSystem.lookUpInodeIntended bucketAll NewFileSystem RootInodeID nameLogs =
      FsResult.ok (2, attrsZero) fsAfterLogs0 := by
  decide

/-- C2: two resolve-child calls with the same live directory parent and the same
directory-like child name (serialized by the exclusive coordinator lock)
converge on one entity and one identifier: the first call yields some inode `d`
and post state `s₁`; the second call, run from `s₁`, finds the registration in
the name index, returns the same `d`, leaves the state exactly `s₁` (so it
mints nothing), and the name index holds exactly one entry for the resolved
name. -/
theorem resolve_child_dedup (b : Bucket) (ops : List FsOp) (s : FsState)
    (hs : fsExec b NewFileSystem ops = some s) (parent : Nat) (p : Inode)
    (hp : mapLookup s.inodes parent = some p) (childName : String)
    (hdir : isDirName childName = true) (o : StorageObject)
    (hl : lookUpChild b p.name childName = some o) :
    ∃ d s₁,
      fileSystem.lookUpInodeCore b s parent childName = FsResult.ok d s₁ ∧
      fileSystem.lookUpInodeCore b s₁ parent childName = FsResult.ok d s₁ ∧
      mapLookup s₁.dirNameIndex o.name = some d ∧
      s₁.dirNameIndex.countP (fun q => decide (q.1 = o.name)) = 1 := by
  have hInv : FsInvariant s := fsExec_invariant b fsInvariant_init hs
  have hpd : p.isDir = true := hInv.allDir (parent, p) (mem_of_mapLookup_some hp)
  have hpn : isDirName p.name = true := hInv.dirNames (parent, p) (mem_of_mapLookup_some hp)
  obtain ⟨hc, ho_eq⟩ := lookUpChild_some_eq hl
  have ho : isDirName o.name = true := by
    rw [ho_eq]
    exact isDirName_append_of_true hpn hdir
  rcases hlu : fileSystem.lookUpOrCreateDirInode s o with ⟨d, s₁⟩
  obtain ⟨hdn, hddir, hidx1, hmem1, hpres⟩ := luocd_props hInv hlu
  have hInv1 : FsInvariant s₁ := luocd_invariant hInv ho hlu
  have hcore1 := lookUpInodeCore_eq_ok hp hpd hl ho hlu
  have hp2 : mapLookup s₁.inodes parent = some p := hpres parent p hp
  have hlu2 : fileSystem.lookUpOrCreateDirInode s₁ o = (d, s₁) := luocd_hit hidx1
  have hcore2 := lookUpInodeCore_eq_ok hp2 hpd hl ho hlu2
  exact ⟨d, s₁, hcore1, hcore2, hidx1,
    countP_key_eq_one hInv1.idxKeysNodup (mem_of_mapLookup_some hidx1)⟩

/-- C2 witness: the dedup at the concrete input resolve-child(root, "logs/")
twice from the freshly mounted state against a store containing every key. -/
theorem resolve_child_dedup_witness :
    ∃ d s₁,
      fileSystem.lookUpInodeCore bucketAll NewFileSystem RootInodeID nameLogs =
        FsResult.ok d s₁ ∧
      fileSystem.lookUpInodeCore bucketAll s₁ RootInodeID nameLogs =
        FsResult.ok d s₁ ∧
      mapLookup s₁.dirNameIndex (StorageObject.mk (rootInode.name ++ nameLogs)).name =
        some d ∧
      s₁.dirNameIndex.countP
        (fun q => decide (q.1 = (StorageObject.mk (rootInode.name ++ nameLogs)).name)) = 1 :=
  resolve_child_dedup bucketAll [] NewFileSystem rfl RootInodeID rootInode (by decide)
    nameLogs (by decide) ⟨rootInode.name ++ nameLogs⟩ (by decide)

/-- C3: in every state reachable from the freshly constructed coordinator, no
two live entities share an identifier, every entity-table key lies between the
root identifier (inclusive) and the next-identifier counter (exclusive) — so no
identifier below the root's is ever issued — and every further operation either
leaves the table and the counter untouched or mints exactly one identifier: the
counter advances by exactly one and the minted key is the old counter value,
which was never a key before (and, keys being bounded by the monotone counter,
was never issued earlier). -/
theorem identifier_uniqueness (b : Bucket) (ops : List FsOp) (s : FsState)
    (hs : fsExec b NewFileSystem ops = some s) :
    ((s.inodes.map fun p => (p.2).id).Nodup) ∧
    (∀ p ∈ s.inodes, RootInodeID ≤ p.1 ∧ p.1 < s.nextInodeID) ∧
    (∀ op s', fsStep b s op = some s' →
      (s'.inodes = s.inodes ∧ s'.nextInodeID = s.nextInodeID) ∨
      (s'.nextInodeID = s.nextInodeID + 1 ∧ mapLookup s.inodes s.nextInodeID = none ∧
        ∃ d : Inode, d.id = s.nextInodeID ∧
          s'.inodes = s.inodes ++ [(s.nextInodeID, d)])) := by
  have hInv := fsExec_invariant b fsInvariant_init hs
  refine ⟨?_, fun p hp => ⟨hInv.keyGeRoot p hp, hInv.keyLtNext p hp⟩,
    fun op s' h => fsStep_mint_or_same b hInv h⟩
  rw [List.map_congr_left fun p hp => hInv.idEqKey p hp]
  exact hInv.keysNodup

/-- C3 witness: the invariants at the initial state, reached by the empty
operation sequence. -/
theorem identifier_uniqueness_witness :
    ((NewFileSystem.inodes.map fun p => (p.2).id).Nodup) ∧
    (∀ p ∈ NewFileSystem.inodes,
      RootInodeID ≤ p.1 ∧ p.1 < NewFileSystem.nextInodeID) ∧
    (∀ op s', fsStep bucketAll NewFileSystem op = some s' →
      (s'.inodes = NewFileSystem.inodes ∧
        s'.nextInodeID = NewFileSystem.nextInodeID) ∨
      (s'.nextInodeID = NewFileSystem.nextInodeID + 1 ∧
        mapLookup NewFileSystem.inodes NewFileSystem.nextInodeID = none ∧
        ∃ d : Inode, d.id = NewFileSystem.nextInodeID ∧
          s'.inodes = NewFileSystem.inodes ++
            [(NewFileSystem.nextInodeID, d)])) :=
  identifier_uniqueness bucketAll [] NewFileSystem rfl

/-- C4: in every reachable state the directory name index is bijective with the
Directory-typed subset of the entity table: equal cardinality; every index
entry maps a name to a Directory whose own name equals that key and which also
appears in the entity table under its own identifier; and every stored
entity's id field equals its map key. -/
theorem index_bijection (b : Bucket) (ops : List FsOp) (s : FsState)
    (hs : fsExec b NewFileSystem ops = some s) :
    s.dirNameIndex.length = (s.inodes.filter fun p => (p.2).isDir).length ∧
    (∀ q ∈ s.dirNameIndex, (q.2).isDir = true ∧ (q.2).name = q.1 ∧
      mapLookup s.inodes (q.2).id = some q.2) ∧
    (∀ p ∈ s.inodes, (p.2).id = p.1) := by
  have hInv := fsExec_invariant b fsInvariant_init hs
  refine ⟨?_, fun q hq => ?_, hInv.idEqKey⟩
  · rw [List.filter_eq_self.mpr hInv.allDir]
    exact hInv.idxCard
  · obtain ⟨h1, h2, h3⟩ := hInv.idxSound q hq
    exact ⟨h2, h1, h3⟩

/-- C4 witness: the bijection at the initial state, reached by the empty
operation sequence. -/
theorem index_bijection_witness :
    NewFileSystem.dirNameIndex.length =
      (NewFileSystem.inodes.filter fun p => (p.2).isDir).length ∧
    (∀ q ∈ NewFileSystem.dirNameIndex, (q.2).isDir = true ∧ (q.2).name = q.1 ∧
      mapLookup NewFileSystem.inodes (q.2).id = some q.2) ∧
    (∀ p ∈ NewFileSystem.inodes, (p.2).id = p.1) :=
  index_bijection bucketAll [] NewFileSystem rfl

/-- C5 counterexample: the claim says every resolve-child call with a file-like
child name returns the unimplemented-capability failure. Against a store with
no objects, resolve-child(root, "file.txt") returns the not-found failure
instead (the file branch is only reached after a successful store lookup), so
the claim as stated is false. -/
theorem file_lookup_miss_not_unimplemented :
    fileSystem.LookUpInode bucketEmpty NewFileSystem RootInodeID nameFileTxt =
      FsResult.err FsError.notFound NewFileSystem ∧
    FsError.notFound ≠ FsError.todoFiles := by
  decide

/-- C5 as amended: for a resolve-child call on a live directory parent with a
file-like child name (non-empty, no trailing separator), if the backing-store
lookup succeeds the call returns the unimplemented-capability failure, and if
it misses the call returns the not-found failure; in both cases the coordinator
state is returned unchanged — no identifier is minted and no entry is added to
the entity table or the name index. -/
theorem file_branch_unimplemented_no_mutation (b : Bucket) (s : FsState) (parent : Nat)
    (p : Inode) (hp : mapLookup s.inodes parent = some p) (hpd : p.isDir = true)
    (childName : String) (hfile : isDirName childName = false) :
    (b.contains (p.name ++ childName) = true →
      fileSystem.LookUpInode b s parent childName =
        FsResult.err FsError.todoFiles s) ∧
    (b.contains (p.name ++ childName) = false →
      fileSystem.LookUpInode b s parent childName =
        FsResult.err FsError.notFound s) := by
  constructor
  · intro hc
    have hl := lookUpChild_of_contains hc
    have ho : isDirName (p.name ++ childName) = false :=
      isDirName_append_of_false p.name hfile
    simp [fileSystem.LookUpInode, fileSystem.lookUpInodeCore, hp, hpd, hl, ho]
  · intro hc
    have hl : lookUpChild b p.name childName = none := by
      simp [lookUpChild, hc]
    simp [fileSystem.LookUpInode, fileSystem.lookUpInodeCore, hp, hpd, hl]

/-- C5 witness: the amended claim at resolve-child(root, "file.txt") from the
initial state, for a store holding every key (hence hitting the
unimplemented-capability branch). -/
theorem file_branch_unimplemented_no_mutation_witness :
    (bucketAll.contains (rootInode.name ++ nameFileTxt) = true →
      fileSystem.LookUpInode bucketAll NewFileSystem RootInodeID nameFileTxt =
        FsResult.err FsError.todoFiles NewFileSystem) ∧
    (bucketAll.contains (rootInode.name ++ nameFileTxt) = false →
      fileSystem.LookUpInode bucketAll NewFileSystem RootInodeID nameFileTxt =
        FsResult.err FsError.notFound NewFileSystem) :=
  file_branch_unimplemented_no_mutation bucketAll NewFileSystem RootInodeID rootInode
    (by decide) (by decide) nameFileTxt (by decide)

/-- C6: the claim says every attribute response — from get-attributes and from
resolve-child alike — carries the uid/gid recorded at mount-init. The source
violates this on the resolve-child path: after mount-init records uid/gid 500,
`GetInodeAttributes` (via `getAttributes`) overlays 500/500 as claimed, but
`LookUpInode` fills the response attributes directly from the entity's own
attribute fetch, so the response carries the store-reported owner (0/0 here),
not the recorded one. -/
theorem owner_overlay_missing_in_lookup :
    fileSystem.Init NewFileSystem 500 500 = FsResult.ok () fsInit500 ∧
    fsInit500.uid = 500 ∧ fsInit500.gid = 500 ∧
    fileSystem.lookUpInodeIntended bucketAll fsInit500 RootInodeID nameLogs =
      FsResult.ok (2, attrsZero) fsAfterLogs500 ∧
    attrsZero.uid = 0 ∧ attrsZero.gid = 0 ∧
    fileSystem.GetInodeAttributes bucketAll fsInit500 RootInodeID =
      FsResult.ok { size := 0, mtime := 0, mode := 0, uid := 500, gid := 500 }
        fsInit500 := by
  decide

/-- C7 counterexample: the claim says both identifier counters start one past
the root identifier, but the handle counter is left at its Go zero value by the
constructor's struct literal, and zero is not one past the root. -/
theorem handle_counter_not_one_past_root :
    NewFileSystem.nextHandleID = 0 ∧
    NewFileSystem.nextHandleID ≠ RootInodeID + 1 := by
  decide

/-- C7 as amended: immediately after construction the entity table holds
exactly the root Directory under the fixed root identifier, the name index
maps the empty string to that same entity, the entity counter equals one past
the root identifier, and the handle counter (together with the handle table)
starts at zero. -/
theorem initial_state_shape :
    NewFileSystem.inodes = [(RootInodeID, rootInode)] ∧
    mapLookup NewFileSystem.inodes RootInodeID = some rootInode ∧
    NewFileSystem.dirNameIndex = [(("" : String), rootInode)] ∧
    mapLookup NewFileSystem.dirNameIndex ("") = some rootInode ∧
    NewFileSystem.nextInodeID = RootInodeID + 1 ∧
    NewFileSystem.nextHandleID = 0 ∧
    NewFileSystem.handles = [] := by
  decide

/-- C8: a handle is usable for read-directory only between open and release:
from any reachable state, a read on a live handle succeeds; releasing it
removes exactly its entry from the handle table (the post state differs only in
`handles`, where the entry is erased and all other keys are untouched), and
after the release every read-directory against that identifier — immediately or
after any further sequence of operations — is rejected as an unknown handle
(the fatal assertion on the absent entry). -/
theorem handle_release_lifecycle (b : Bucket) (ops : List FsOp) (s : FsState)
    (hs : fsExec b NewFileSystem ops = some s) (handleID : Nat) (dh : DirHandle)
    (hh : mapLookup s.handles handleID = some dh) :
    fileSystem.ReadDir b s handleID =
      FsResult.ok (dh.readDir b).1
        { s with handles := mapInsert s.handles handleID (dh.readDir b).2 } ∧
    fileSystem.ReleaseDirHandle s handleID =
      FsResult.ok () { s with handles := mapErase s.handles handleID } ∧
    mapLookup (mapErase s.handles handleID) handleID = none ∧
    (∀ h₂, h₂ ≠ handleID →
      mapLookup (mapErase s.handles handleID) h₂ = mapLookup s.handles h₂) ∧
    (∀ ops₂ s₂,
      fsExec b { s with handles := mapErase s.handles handleID } ops₂ = some s₂ →
      fileSystem.ReadDir b s₂ handleID = FsResult.fatal) := by
  have hInv := fsExec_invariant b fsInvariant_init hs
  refine ⟨?_, ?_, mapLookup_mapErase_self _ _,
    fun h₂ hne => mapLookup_mapErase_ne _ _ _ hne, ?_⟩
  · simp [fileSystem.ReadDir, hh]
  · simp [fileSystem.ReleaseDirHandle, hh]
  · intro ops₂ s₂ hexec
    have hdead : DeadHandle handleID { s with handles := mapErase s.handles handleID } :=
      ⟨mapLookup_mapErase_self _ _,
        hInv.handleLtNext (handleID, dh) (mem_of_mapLookup_some hh)⟩
    exact readDir_fatal_of_none (fsExec_deadHandle b hdead hexec).1

/-- C8 witness: the lifecycle for the handle opened on the root directory by a
single open-directory operation from the initial state. -/
theorem handle_release_lifecycle_witness :
    fileSystem.ReadDir bucketAll fsOpened 0 =
      FsResult.ok (DirHandle.readDir bucketAll { inode := rootInode, cursor := 0 }).1
        { fsOpened with
            handles := mapInsert fsOpened.handles 0
              (DirHandle.readDir bucketAll { inode := rootInode, cursor := 0 }).2 } ∧
    fileSystem.ReleaseDirHandle fsOpened 0 =
      FsResult.ok () { fsOpened with handles := mapErase fsOpened.handles 0 } ∧
    mapLookup (mapErase fsOpened.handles 0) 0 = none ∧
    (∀ h₂, h₂ ≠ 0 →
      mapLookup (mapErase fsOpened.handles 0) h₂ = mapLookup fsOpened.handles h₂) ∧
    (∀ ops₂ s₂,
      fsExec bucketAll { fsOpened with handles := mapErase fsOpened.handles 0 } ops₂ =
        some s₂ →
      fileSystem.ReadDir bucketAll s₂ 0 = FsResult.fatal) :=
  handle_release_lifecycle bucketAll [FsOp.opOpenDir RootInodeID] fsOpened (by decide)
    0 { inode := rootInode, cursor := 0 } (by decide)

/-- C9: a get-attributes call whose identifier is not a key of the entity table
reaches the fatal default branch of the variant dispatch — the call aborts as a
contract violation and never returns a soft error. -/
theorem get_attributes_unknown_fatal (b : Bucket) (s : FsState) (k : Nat)
    (h : mapLookup s.inodes k = none) :
    fileSystem.GetInodeAttributes b s k = FsResult.fatal := by
  simp [fileSystem.GetInodeAttributes, h]

/-- C9 witness: get-attributes on identifier 0, which is never a key of the
initial entity table. -/
theorem get_attributes_unknown_fatal_witness :
    mapLookup NewFileSystem.inodes 0 = none ∧
    fileSystem.GetInodeAttributes bucketAll NewFileSystem 0 = FsResult.fatal :=
  ⟨by decide, get_attributes_unknown_fatal bucketAll NewFileSystem 0 (by decide)⟩

/-- C10: in every reachable state every stored entity is a Directory — the only
insertion paths are the root at construction and the directory mint in
resolve-child, and the file branch fails before minting — so a get-attributes
call on any live identifier takes the Directory case and returns attributes,
never reaching the File case of the consistency check or the fatal default
branch. -/
theorem all_live_entities_are_directories (b : Bucket) (ops : List FsOp) (s : FsState)
    (hs : fsExec b NewFileSystem ops = some s) :
    (∀ p ∈ s.inodes, (p.2).isDir = true) ∧
    (∀ k d, mapLookup s.inodes k = some d →
      fileSystem.GetInodeAttributes b s k =
        FsResult.ok (fileSystem.getAttributes b s d) s) := by
  have hInv := fsExec_invariant b fsInvariant_init hs
  refine ⟨hInv.allDir, fun k d hkd => ?_⟩
  have hdir : d.isDir = true := hInv.allDir (k, d) (mem_of_mapLookup_some hkd)
  simp [fileSystem.GetInodeAttributes, hkd, hdir]

/-- C10 witness: the property at the initial state, reached by the empty
operation sequence. -/
theorem all_live_entities_are_directories_witness :
    (∀ p ∈ NewFileSystem.inodes, (p.2).isDir = true) ∧
    (∀ k d, mapLookup NewFileSystem.inodes k = some d →
      fileSystem.GetInodeAttributes bucketAll NewFileSystem k =
        FsResult.ok (fileSystem.getAttributes bucketAll NewFileSystem d)
          NewFileSystem) :=
  all_live_entities_are_directories bucketAll [] NewFileSystem rfl
